import Mathlib

/-!
Shallow embedding of the core of PicoDisp (`src/main.py` and `src/display.py`):
the fixed-capacity history buffer, the Europe/Berlin DST rule, the linear
resampler, the chart scale/step/grid computations and the chart renderer.

Conventions of the embedding:
* Python floats are modelled by exact rationals (`ℚ`); Python ints by `ℤ`
  (or `ℕ` for list lengths / indices).
* Python `int(x)` (truncation toward zero) is `pyInt`; Python `//` and `%`
  on ints are `Int.fdiv` / `Int.emod` (floor division, nonnegative remainder
  for positive divisors), which is exactly Python's semantics.
* Drawing into the framebuffer is modelled as a trace: each `fb.rect`,
  `fb.text`, `fb.line`, `fb.hline`, `fb.vline` call appends a `DrawCmd`.
  Text labels whose content is a formatted number are recorded as `textNum`
  carrying the exact rational value (the decimal string formatting itself is
  not modelled; no claim is about label strings).
-/

/-- Python `int(q)`: truncation toward zero. -/
def pyInt (q : ℚ) : ℤ :=
  if q < 0 then -⌊-q⌋ else ⌊q⌋

/-- Python `range(start, stop, step)` for a positive `step`. -/
def pyRange (start stop step : ℕ) : List ℕ :=
  List.range' start ((stop - start + step - 1) / step) step

/-- `EPD_WIDTH` from `src/display.py`. -/
def EPD_WIDTH : ℤ := 296

/-- `EPD_HEIGHT` from `src/display.py`. -/
def EPD_HEIGHT : ℤ := 128

/-- `FG_COLOR` from `src/main.py`. -/
def FG_COLOR : ℤ := 0

/-- The `RingBuffer` class of `src/main.py`: a capacity bound `length` and a
Python list `data`. -/
structure RingBuffer where
  length : ℕ
  data : List ℚ
deriving Repr, DecidableEq

/-- `RingBuffer.__init__`. -/
def RingBuffer.new (n : ℕ) : RingBuffer := ⟨n, []⟩

/-- `RingBuffer.append`: when `len(self.data) >= self.length`, `pop(0)` drops
the first element before appending.  (`pop(0)` on an empty list would raise in
Python; that is reachable only for capacity 0, and `List.tail [] = []` stands
in for it.) -/
def RingBuffer.append (b : RingBuffer) (v : ℚ) : RingBuffer :=
  if b.length ≤ b.data.length then ⟨b.length, b.data.tail ++ [v]⟩
  else ⟨b.length, b.data ++ [v]⟩

/-- `RingBuffer.extend`: append each value in order. -/
def RingBuffer.extend (b : RingBuffer) (vs : List ℚ) : RingBuffer :=
  vs.foldl RingBuffer.append b

/-- `RingBuffer.minmax`: `(0, 1)` when empty, else `(min, max)` of the data. -/
def RingBuffer.minmax (b : RingBuffer) : ℚ × ℚ :=
  match b.data with
  | [] => (0, 1)
  | x :: xs => (xs.foldl min x, xs.foldl max x)

/-- `_weekday(year, month, day)` from `src/main.py` (Sakamoto, 0 = Sunday). -/
def _weekday (year month day : ℤ) : ℤ :=
  let t : List ℤ := [0, 3, 2, 5, 0, 3, 5, 1, 4, 6, 2, 4]
  let y : ℤ := if month < 3 then year - 1 else year
  (y + y.fdiv 4 - y.fdiv 100 + y.fdiv 400 + t.getD (month - 1).toNat 0 + day).emod 7

/-- `_last_sunday(year, month)` from `src/main.py`: the `while last_day > 27`
loop unrolled (it checks days 31, 30, 29, 28 and falls through to 27). -/
def _last_sunday (year month : ℤ) : ℤ :=
  if _weekday year month 31 = 0 then 31
  else if _weekday year month 30 = 0 then 30
  else if _weekday year month 29 = 0 then 29
  else if _weekday year month 28 = 0 then 28
  else 27

/-- `_berlin_offset_seconds(utc_tuple)` from `src/main.py`; the tuple fields
actually read are year, month, day, hour. -/
def _berlin_offset_seconds (year month day hour : ℤ) : ℤ :=
  let last_sun_mar := _last_sunday year 3
  let last_sun_oct := _last_sunday year 10
  let dst : Bool :=
    if 4 ≤ month ∧ month ≤ 9 then true
    else if month = 3 then
      (day > last_sun_mar ∨ (day = last_sun_mar ∧ hour ≥ 2))
    else if month = 10 then
      (day < last_sun_oct ∨ (day = last_sun_oct ∧ hour < 3))
    else false
  if dst then 7200 else 3600

/-- `_scale(value, min_val, span, height)` from `src/main.py`:
`int(((value - min_val) / span) * (height - 1))`. -/
def _scale (value min_val span : ℚ) (height : ℤ) : ℤ :=
  pyInt ((value - min_val) / span * ((height : ℚ) - 1))

/-- `_nice_step(span)` from `src/main.py`, with the `for factor in (1,2,5,10)`
loop unrolled.  `10 ** math.floor(math.log10(rough))` is `10 ^ Int.log 10 rough`
(for a positive rational, `Int.log 10` is the floor of the base-10 logarithm). -/
def _nice_step (span : ℚ) : ℚ :=
  let rough : ℚ := span / 4
  let magnitude : ℚ := if 0 < rough then (10 : ℚ) ^ Int.log 10 rough else 1
  if span / (1 * magnitude) ≤ 6 then 1 * magnitude
  else if span / (2 * magnitude) ≤ 6 then 2 * magnitude
  else if span / (5 * magnitude) ≤ 6 then 5 * magnitude
  else if span / (10 * magnitude) ≤ 6 then 10 * magnitude
  else magnitude

/-- The interpolation body of the `for i in range(target_len)` loop of
`_resample`: `pos = i*(n-1)/(target_len-1)`, `low = int(pos)`,
`high = min(low+1, n-1)`, `frac = pos - low`,
`values[low]*(1-frac) + values[high]*frac`.  The list accesses are in range
in Python and are modelled with default 0. -/
def resampleAt (values : List ℚ) (target_len i : ℕ) : ℚ :=
  let n := values.length
  let pos : ℚ := (i : ℚ) * ((n : ℚ) - 1) / ((target_len : ℚ) - 1)
  let low : ℕ := (pyInt pos).toNat
  let high : ℕ := min (low + 1) (n - 1)
  let frac : ℚ := pos - (low : ℚ)
  values.getD low 0 * (1 - frac) + values.getD high 0 * frac

/-- `_resample(values, target_len)` from `src/main.py`.  `values[-1]` (the
most recent value) is the access at index `n - 1`. -/
def _resample (values : List ℚ) (target_len : ℕ) : List ℚ :=
  let n := values.length
  if n = 0 then []
  else if n = target_len then values
  else if target_len = 1 then [values.getD (n - 1) 0]
  else (List.range target_len).map (resampleAt values target_len)

/-- `_format_k` rounds a value into a short label string; the label content is
abstracted: a `textNum` command records the exact value passed to `fb.text`
formatting.  One framebuffer drawing call of `src/main.py` / `src/display.py`. -/
inductive DrawCmd where
  | rect (x y w h color : ℤ)
  | textLit (s : String) (x y color : ℤ)
  | textNum (v : ℚ) (x y color : ℤ)
  | line (x1 y1 x2 y2 color : ℤ)
  | hline (x y len color : ℤ)
  | vline (x y len color : ℤ)
deriving Repr, DecidableEq

/-- The `while pos < end` loop of `_hline_dashed` (defaults `dash=3`,
`gap=2`; no caller overrides them).  `fuel` bounds the iteration count; the
callers pass `fuel = length.toNat`, which is at least the number of
iterations since `pos` advances by 5 each time. -/
def _hline_dashed_go : ℕ → ℤ → ℤ → ℤ → ℤ → List DrawCmd
  | 0, _, _, _, _ => []
  | fuel + 1, pos, endp, y, color =>
    if pos < endp then
      DrawCmd.hline pos y (min 3 (endp - pos)) color ::
        _hline_dashed_go fuel (pos + 5) endp y color
    else []

/-- `_hline_dashed(fb, x, y, length, color)` from `src/main.py`. -/
def _hline_dashed (x y length color : ℤ) : List DrawCmd :=
  _hline_dashed_go length.toNat x (x + length) y color

/-- The `while pos < end` loop of `_vline_dashed` (defaults `dash=3`, `gap=2`). -/
def _vline_dashed_go : ℕ → ℤ → ℤ → ℤ → ℤ → List DrawCmd
  | 0, _, _, _, _ => []
  | fuel + 1, pos, endp, x, color =>
    if pos < endp then
      DrawCmd.vline x pos (min 3 (endp - pos)) color ::
        _vline_dashed_go fuel (pos + 5) endp x color
    else []

/-- `_vline_dashed(fb, x, y, length, color)` from `src/main.py`. -/
def _vline_dashed (x y length color : ℤ) : List DrawCmd :=
  _vline_dashed_go length.toNat y (y + length) x color

/-- The `while y <= max_val` loop head values of `_draw_y_grid`: the sequence
`start, start + step, ...` while `≤ max_val`, cut off by `fuel`. -/
def yLoop : ℕ → ℚ → ℚ → ℚ → List ℚ
  | 0, _, _, _ => []
  | fuel + 1, y, max_val, step =>
    if y ≤ max_val then y :: yLoop fuel (y + step) max_val step else []

/-- `_draw_y_grid(fb, left, top, width, height, min_val, max_val, step)` from
`src/main.py`.  The loop is rendered with enough fuel for every terminating
run (when `0 < step` the loop makes at most `⌈(max_val - start)/step⌉ + 1`
iterations; see `nice_step_pos_y_grid_terminates`). -/
def _draw_y_grid (left top width height : ℤ) (min_val max_val step : ℚ) : List DrawCmd :=
  let start : ℚ := (⌈min_val / step⌉ : ℚ) * step
  let fuel : ℕ := (⌈(max_val - start) / step⌉).toNat + 1
  (yLoop fuel start max_val step).flatMap fun y =>
    let offset := _scale y min_val (max (max_val - min_val) (1 / 1000000)) height
    _hline_dashed left (top + height - offset) width FG_COLOR ++
      [DrawCmd.textNum y 4 (top + height - offset - 4) FG_COLOR]

/-- `_draw_x_grid(fb, left, top, height, step_x, points, span_label)` from
`src/main.py`. -/
def _draw_x_grid (left top height : ℤ) (step_x : ℚ) (points : ℕ) (span_label : String) :
    List DrawCmd :=
  if points < 2 then []
  else
    let desired_lines : ℕ := if span_label = "365d" then 12 else 6
    let step_points : ℕ := max 1 (points / desired_lines)
    (pyRange step_points points step_points).flatMap fun idx =>
      _vline_dashed (pyInt ((left : ℚ) + (idx : ℚ) * step_x)) top height FG_COLOR

/-- The `for idx, value in enumerate(history.data[1:], start=1)` polyline loop
of `draw_chart`. -/
def chartLine (chart_left chart_top chart_height : ℤ) (min_val span step_x : ℚ) :
    List ℚ → ℕ → ℤ → ℤ → List DrawCmd
  | [], _, _, _ => []
  | v :: rest, idx, prev_x, prev_y =>
    let x := pyInt ((chart_left : ℚ) + (idx : ℚ) * step_x)
    let y := chart_top + chart_height - _scale v min_val span chart_height
    DrawCmd.line prev_x prev_y x y FG_COLOR ::
      chartLine chart_left chart_top chart_height min_val span step_x rest (idx + 1) x y

/-- `draw_chart(fb, history, span_label)` from `src/main.py`, as the trace of
framebuffer drawing calls it performs, in order. -/
def draw_chart (history : RingBuffer) (span_label : String) : List DrawCmd :=
  let chart_left : ℤ := 55
  let chart_top : ℤ := 34
  let chart_width : ℤ := EPD_WIDTH - chart_left - 6
  let chart_height : ℤ := 64
  let points : ℕ := history.data.length
  let border := DrawCmd.rect (chart_left - 1) (chart_top - 1) (chart_width + 2)
    (chart_height + 2) FG_COLOR
  if history.data = [] then
    [border, DrawCmd.textLit "keine Daten" (chart_left + 4)
      (chart_top + chart_height.fdiv 2) FG_COLOR]
  else
    let mm := history.minmax
    let min_val := mm.1
    let max_val := mm.2
    let span : ℚ := max (max_val - min_val) (1 / 1000000)
    let step_x : ℚ := (chart_width : ℚ) / ((max 1 (points - 1) : ℕ) : ℚ)
    let y_step := _nice_step span
    let prev_y0 := chart_top + chart_height -
      _scale (history.data.headD 0) min_val span chart_height
    [border]
      ++ _draw_y_grid chart_left chart_top chart_width chart_height min_val max_val y_step
      ++ _draw_x_grid chart_left chart_top chart_height step_x points span_label
      ++ chartLine chart_left chart_top chart_height min_val span step_x
          history.data.tail 1 chart_left prev_y0
      ++ [DrawCmd.textNum min_val chart_left (chart_top + chart_height + 4) FG_COLOR,
          DrawCmd.textNum max_val (chart_left + 110) (chart_top + chart_height + 4) FG_COLOR,
          DrawCmd.textLit span_label (chart_left + chart_width - 36) (chart_top - 9) FG_COLOR]

/-- Whether the trace contains a vertical-line drawing call at column `x`. -/
def hasVlineAt (cmds : List DrawCmd) (x : ℤ) : Bool :=
  cmds.any fun c =>
    match c with
    | DrawCmd.vline x' _ _ _ => x' = x
    | _ => false

/-! ## Theorems -/

/-- `RingBuffer.append` never changes the capacity field. -/
theorem RingBuffer.append_length (b : RingBuffer) (v : ℚ) :
    (b.append v).length = b.length := by
  unfold RingBuffer.append
  split <;> rfl

/-- `RingBuffer.extend` never changes the capacity field. -/
theorem RingBuffer.extend_length (b : RingBuffer) (vs : List ℚ) :
    (b.extend vs).length = b.length := by
  induction vs generalizing b with
  | nil => rfl
  | cons v vs ih =>
    show ((b.append v).extend vs).length = b.length
    rw [ih, RingBuffer.append_length]

/-- `extend` is `foldl append`, so it splits over a final `append`. -/
theorem RingBuffer.extend_append_last (b : RingBuffer) (vs : List ℚ) (v : ℚ) :
    b.extend (vs ++ [v]) = (b.extend vs).append v := by
  unfold RingBuffer.extend
  rw [List.foldl_append]
  rfl

/-- Full characterisation of the data after loading `vs` into a fresh buffer of
positive capacity `N`: exactly the last `min (vs.length) N` values survive, in
order. -/
theorem RingBuffer.extend_new_data (N : ℕ) (hN : 0 < N) (vs : List ℚ) :
    ((RingBuffer.new N).extend vs).data = vs.drop (vs.length - N) := by
  induction vs using List.reverseRecOn with
  | nil => simp [RingBuffer.extend, RingBuffer.new]
  | append_singleton xs v ih =>
    rw [RingBuffer.extend_append_last]
    have hlen : ((RingBuffer.new N).extend xs).length = N :=
      RingBuffer.extend_length _ _
    have hdrop_len : (xs.drop (xs.length - N)).length = xs.length - (xs.length - N) :=
      List.length_drop _ _
    unfold RingBuffer.append
    rw [ih, hlen, hdrop_len]
    by_cases hxs : N ≤ xs.length
    · rw [if_pos (by omega)]
      have h1 : (xs.drop (xs.length - N)).tail = xs.drop (xs.length - N + 1) := by
        rw [List.tail_drop]
      have h2 : (xs ++ [v]).drop ((xs ++ [v]).length - N) =
          xs.drop (xs.length + 1 - N) ++ [v] := by
        rw [List.length_append, List.length_singleton]
        exact List.drop_append_of_le_length (by omega)
      rw [h1, h2]
      have : xs.length - N + 1 = xs.length + 1 - N := by omega
      rw [this]
    · rw [if_neg (by omega)]
      have h0 : xs.length - N = 0 := by omega
      have h0' : (xs ++ [v]).length - N = 0 := by
        rw [List.length_append, List.length_singleton]; omega
      rw [h0, h0', List.drop_zero, List.drop_zero]

/-- C2: a `RingBuffer` of positive capacity `N` filled by any sequence of
appends (`extend vs` applies `append` to each value in order) always satisfies
`len(data) ≤ N`, and once more than `N` values have been appended it holds
exactly the last `N` appended values in their original order. -/
theorem ringbuffer_fifo (N : ℕ) (vs : List ℚ) (hN : 0 < N) :
    ((RingBuffer.new N).extend vs).data.length ≤ N ∧
    (N < vs.length →
      ((RingBuffer.new N).extend vs).data = vs.drop (vs.length - N) ∧
      ((RingBuffer.new N).extend vs).data.length = N) := by
  have hdata := RingBuffer.extend_new_data N hN vs
  constructor
  · rw [hdata, List.length_drop]; omega
  · intro hlt
    refine ⟨hdata, ?_⟩
    rw [hdata, List.length_drop]; omega

/-- C2 witness: capacity 2, appends `[1, 2, 3]`. -/
theorem ringbuffer_fifo_witness :
    ((RingBuffer.new 2).extend [1, 2, 3]).data.length ≤ 2 ∧
    ((RingBuffer.new 2).extend [1, 2, 3]).data = [2, 3] := by
  refine ⟨(ringbuffer_fifo 2 [1, 2, 3] (by decide)).1, ?_⟩
  have h := (ringbuffer_fifo 2 [1, 2, 3] (by decide)).2 (by decide)
  rw [h.1]
  decide

/-- C6: the four 2024 Europe/Berlin DST boundary instants.  UTC 2024-03-31
01:59 is still standard time (+1 h = 3600 s), 02:00 is daylight (+2 h =
7200 s); UTC 2024-10-27 02:59 is still daylight, 03:00 is standard. -/
theorem berlin_dst_boundaries_2024 :
    _berlin_offset_seconds 2024 3 31 1 = 3600 ∧
    _berlin_offset_seconds 2024 3 31 2 = 7200 ∧
    _berlin_offset_seconds 2024 10 27 2 = 7200 ∧
    _berlin_offset_seconds 2024 10 27 3 = 3600 := by
  decide

/-- C1: the scan of `_last_sunday` stops at day 28, so in a year whose last
March Sunday falls on the 25th (such as 2018) it returns 27 — a Tuesday, not a
Sunday — and `_berlin_offset_seconds` consequently reports standard time
(3600 s) for UTC 2018-03-26 12:00, inside the real Europe/Berlin daylight
period (which began 2018-03-25 01:00 UTC).  October has the same defect
(e.g. 2020, last Sunday October 25). -/
theorem last_sunday_scan_bug :
    _last_sunday 2018 3 = 27 ∧
    _weekday 2018 3 27 ≠ 0 ∧
    _weekday 2018 3 25 = 0 ∧
    _berlin_offset_seconds 2018 3 26 12 = 3600 ∧
    _last_sunday 2020 10 = 27 ∧
    _weekday 2020 10 25 = 0 := by
  decide

/-- C3 counterexample: at `value = 19`, `min_val = 0`, `span = 100`,
`height = 11` (all claim-side conditions hold), the intermediate value is
`1.9`; Python `int()` truncates to 1 whereas rounding gives 2. -/
theorem scale_round_counterexample :
    (0 : ℚ) < 100 ∧ (1 : ℤ) ≤ 11 ∧ (0 : ℚ) ≤ 19 ∧ (19 : ℚ) ≤ 0 + 100 ∧
    _scale 19 0 100 11 = 1 ∧
    round (((19 : ℚ) - 0) / 100 * ((11 : ℚ) - 1)) = 2 := by
  norm_num [_scale, pyInt]
  rw [round_eq]
  norm_num

/-- C3 amended: `_scale` computes the floor (equivalently, truncation toward
zero, since the operand is nonnegative here) of
`((value - min_val) / span) * (height - 1)`, an integer in `[0, height - 1]`,
for every `value` in `[min_val, min_val + span]` with `span > 0`,
`height ≥ 1`. -/
theorem scale_floor_inrange (value min_val span : ℚ) (height : ℤ)
    (hspan : 0 < span) (hh : 1 ≤ height)
    (h1 : min_val ≤ value) (h2 : value ≤ min_val + span) :
    _scale value min_val span height =
      ⌊(value - min_val) / span * ((height : ℚ) - 1)⌋ ∧
    0 ≤ _scale value min_val span height ∧
    _scale value min_val span height ≤ height - 1 := by
  have hr0 : (0 : ℚ) ≤ (value - min_val) / span := div_nonneg (by linarith) hspan.le
  have hr1 : (value - min_val) / span ≤ 1 := (div_le_one hspan).mpr (by linarith)
  have hh1 : (0 : ℚ) ≤ (height : ℚ) - 1 := by
    have : (1 : ℚ) ≤ (height : ℚ) := by exact_mod_cast hh
    linarith
  have harg0 : 0 ≤ (value - min_val) / span * ((height : ℚ) - 1) := mul_nonneg hr0 hh1
  have hargle : (value - min_val) / span * ((height : ℚ) - 1) ≤ (height : ℚ) - 1 :=
    mul_le_of_le_one_left hh1 hr1
  have heq : _scale value min_val span height =
      ⌊(value - min_val) / span * ((height : ℚ) - 1)⌋ := by
    unfold _scale pyInt
    rw [if_neg (not_lt.mpr harg0)]
  refine ⟨heq, ?_, ?_⟩
  · rw [heq]
    exact Int.floor_nonneg.mpr harg0
  · rw [heq]
    have : ((height : ℚ) - 1) = ((height - 1 : ℤ) : ℚ) := by push_cast; ring
    calc ⌊(value - min_val) / span * ((height : ℚ) - 1)⌋
        ≤ ⌊((height - 1 : ℤ) : ℚ)⌋ := Int.floor_le_floor (by rw [← this]; exact hargle)
      _ = height - 1 := Int.floor_intCast _

/-- C3 witness: the amended statement at `value = 19`, `min_val = 0`,
`span = 100`, `height = 11`. -/
theorem scale_floor_inrange_witness :
    _scale 19 0 100 11 = ⌊(19 - 0 : ℚ) / 100 * ((11 : ℚ) - 1)⌋ ∧
    0 ≤ _scale 19 0 100 11 ∧ _scale 19 0 100 11 ≤ 11 - 1 :=
  scale_floor_inrange 19 0 100 11 (by norm_num) (by norm_num) (by norm_num) (by norm_num)

/-- C4: for any `span > 0` and `height ≥ 1`, `_scale` maps the value-range
endpoints to the pixel-range endpoints: `_scale min_val = 0` and
`_scale (min_val + span) = height - 1`. -/
theorem scale_endpoints (min_val span : ℚ) (height : ℤ)
    (hspan : 0 < span) (hh : 1 ≤ height) :
    _scale min_val min_val span height = 0 ∧
    _scale (min_val + span) min_val span height = height - 1 := by
  constructor
  · unfold _scale pyInt
    norm_num
  · unfold _scale pyInt
    have hs : (min_val + span - min_val) / span = 1 := by
      field_simp
    rw [hs, one_mul]
    have hcast : ((height : ℚ) - 1) = ((height - 1 : ℤ) : ℚ) := by push_cast; ring
    have hnonneg : ¬ ((height : ℚ) - 1 < 0) := by
      push_neg
      have : (1 : ℚ) ≤ (height : ℚ) := by exact_mod_cast hh
      linarith
    rw [if_neg hnonneg, hcast, Int.floor_intCast]

/-- C4 witness: `min_val = 3`, `span = 7`, `height = 10`. -/
theorem scale_endpoints_witness :
    _scale 3 3 7 10 = 0 ∧ _scale (3 + 7) 3 7 10 = 10 - 1 :=
  scale_endpoints 3 7 10 (by norm_num) (by norm_num)

/-- The interpolated value at output index 0 is the first input value. -/
theorem resampleAt_zero (values : List ℚ) (target_len : ℕ) :
    resampleAt values target_len 0 = values.getD 0 0 := by
  unfold resampleAt pyInt
  norm_num

/-- The interpolated value at the last output index is the last input value
(for `target_len ≥ 2` and nonempty input, `pos` is exactly `n - 1`). -/
theorem resampleAt_last (values : List ℚ) (target_len : ℕ)
    (hne : values ≠ []) (h2 : 2 ≤ target_len) :
    resampleAt values target_len (target_len - 1) =
      values.getD (values.length - 1) 0 := by
  have hn : 1 ≤ values.length := List.length_pos.mpr hne
  have htl : ((target_len - 1 : ℕ) : ℚ) = (target_len : ℚ) - 1 := by
    push_cast [Nat.cast_sub (by omega : 1 ≤ target_len)]
    ring
  have htl0 : ((target_len : ℚ) - 1) ≠ 0 := by
    have h2' : (2 : ℚ) ≤ (target_len : ℚ) := by exact_mod_cast h2
    intro h
    linarith
  have hnn : ((values.length - 1 : ℕ) : ℚ) = (values.length : ℚ) - 1 := by
    push_cast [Nat.cast_sub hn]
    ring
  have hpos : ((target_len - 1 : ℕ) : ℚ) * ((values.length : ℚ) - 1) /
      ((target_len : ℚ) - 1) = (values.length : ℚ) - 1 := by
    rw [htl, mul_comm, mul_div_assoc, div_self htl0, mul_one]
  have hfloor : pyInt ((values.length : ℚ) - 1) = (values.length : ℤ) - 1 := by
    unfold pyInt
    rw [if_neg]
    · rw [← hnn, Int.floor_natCast]
      omega
    · push_neg
      rw [← hnn]
      positivity
  have htoNat : (pyInt ((values.length : ℚ) - 1)).toNat = values.length - 1 := by
    rw [hfloor]
    omega
  have hmin : min (values.length - 1 + 1) (values.length - 1) = values.length - 1 := by
    omega
  have hfrac : ((values.length : ℚ) - 1) - ((values.length - 1 : ℕ) : ℚ) = 0 := by
    rw [hnn]
    ring
  unfold resampleAt
  simp only [hpos, htoNat, hmin, hfrac]
  ring

/-- C5: `_resample` keeps length and endpoints.  For nonempty input and
`target_len ≥ 2` the output has length exactly `target_len`, its first element
is the first input element and its last element is the last input element
(exactly — the arithmetic is rational, so this also holds within any floating
tolerance); `target_len = 1` on nonempty input yields the single most recent
value, and empty input yields the empty list. -/
theorem resample_contract (values : List ℚ) (target_len : ℕ) :
    (values ≠ [] → 2 ≤ target_len →
      (_resample values target_len).length = target_len ∧
      (_resample values target_len).head? = values.head? ∧
      (_resample values target_len).getLast? = values.getLast?) ∧
    (values ≠ [] → _resample values 1 = [values.getD (values.length - 1) 0]) ∧
    _resample [] target_len = [] := by
  refine ⟨?_, ?_, ?_⟩
  · intro hne h2
    have h0 : values.length ≠ 0 := fun h => hne (List.length_eq_zero.mp h)
    have hn : 1 ≤ values.length := by omega
    have ht0 : target_len ≠ 0 := by omega
    by_cases hnt : values.length = target_len
    · simp [_resample, h0, hnt, ht0]
    · have ht1 : target_len ≠ 1 := by omega
      have hres : _resample values target_len =
          (List.range target_len).map (resampleAt values target_len) := by
        simp only [_resample, if_neg h0, if_neg hnt, if_neg ht1]
      refine ⟨by simp [hres], ?_, ?_⟩
      · rw [hres, List.head?_eq_getElem?, List.getElem?_map,
          List.getElem?_range (by omega : 0 < target_len),
          List.head?_eq_getElem?,
          List.getElem?_eq_getElem (by omega : 0 < values.length)]
        simp [resampleAt_zero values target_len,
          List.getD_eq_getElem values 0 (by omega : 0 < values.length),
          List.getElem?_eq_getElem (by omega : 0 < values.length)]
      · rw [hres, List.getLast?_eq_getElem?]
        simp only [List.length_map, List.length_range]
        rw [List.getElem?_map, List.getElem?_range (by omega : target_len - 1 < target_len),
          List.getLast?_eq_getElem?,
          List.getElem?_eq_getElem (by omega : values.length - 1 < values.length)]
        simp [resampleAt_last values target_len hne h2,
          List.getD_eq_getElem values 0 (by omega : values.length - 1 < values.length),
          List.getElem?_eq_getElem (by omega : values.length - 1 < values.length)]
  · intro hne
    have h0 : values.length ≠ 0 := fun h => hne (List.length_eq_zero.mp h)
    by_cases hnt : values.length = 1
    · obtain ⟨v, rfl⟩ := List.length_eq_one.mp hnt
      simp [_resample]
    · simp [_resample, h0, hnt]
  · rfl

/-- C5 witness: input `[1, 2, 3]` with `target_len = 2`, `target_len = 1`,
and the empty input. -/
theorem resample_contract_witness :
    ((_resample [1, 2, 3] 2).length = 2 ∧
      (_resample [1, 2, 3] 2).head? = ([1, 2, 3] : List ℚ).head? ∧
      (_resample [1, 2, 3] 2).getLast? = ([1, 2, 3] : List ℚ).getLast?) ∧
    _resample [1, 2, 3] 1 = [([1, 2, 3] : List ℚ).getD (([1, 2, 3] : List ℚ).length - 1) 0] ∧
    _resample [] 7 = [] :=
  ⟨(resample_contract [1, 2, 3] 2).1 (by decide) (by decide),
   (resample_contract [1, 2, 3] 1).2.1 (by decide),
   (resample_contract [] 7).2.2⟩

/-- `_nice_step` always returns a positive step (this also backs C10). -/
theorem nice_step_pos (span : ℚ) : 0 < _nice_step span := by
  simp only [_nice_step]
  by_cases hrough : 0 < span / 4
  · have hmag : (0 : ℚ) < (10 : ℚ) ^ Int.log 10 (span / 4) :=
      zpow_pos (by norm_num) _
    rw [if_pos hrough]
    split
    · linarith
    split
    · linarith
    split
    · linarith
    split
    · linarith
    · exact hmag
  · rw [if_neg hrough]
    split
    · norm_num
    split
    · norm_num
    split
    · norm_num
    split
    · norm_num
    · norm_num

/-- C7: for positive `span`, `_nice_step` returns the smallest candidate
`f * 10 ^ k` with `f ∈ {1, 2, 5, 10}` and `k = ⌊log10 (span/4)⌋` such that
`span / step ≤ 6`; for `span ≤ 0` the guard `rough > 0` skips the logarithm
(so nothing raises) and the result is still a positive step. -/
theorem nice_step_contract (span : ℚ) :
    (0 < span →
      ∃ f ∈ ([1, 2, 5, 10] : List ℚ),
        _nice_step span = f * (10 : ℚ) ^ Int.log 10 (span / 4) ∧
        span / _nice_step span ≤ 6 ∧
        ∀ g ∈ ([1, 2, 5, 10] : List ℚ),
          span / (g * (10 : ℚ) ^ Int.log 10 (span / 4)) ≤ 6 →
          _nice_step span ≤ g * (10 : ℚ) ^ Int.log 10 (span / 4)) ∧
    (span ≤ 0 → 0 < _nice_step span) := by
  refine ⟨?_, fun _ => nice_step_pos span⟩
  intro hspan
  have hrough : 0 < span / 4 := by positivity
  have hmag : (0 : ℚ) < (10 : ℚ) ^ Int.log 10 (span / 4) :=
    zpow_pos (by norm_num) _
  set mag : ℚ := (10 : ℚ) ^ Int.log 10 (span / 4) with hmagdef
  have h10 : span / (10 * mag) ≤ 6 := by
    have hlt : span / 4 < (10 : ℚ) ^ (Int.log 10 (span / 4) + 1) :=
      Int.lt_zpow_succ_log_self (by norm_num) _
    have hsucc : (10 : ℚ) ^ (Int.log 10 (span / 4) + 1) = 10 * mag := by
      rw [zpow_add_one₀ (by norm_num : (10 : ℚ) ≠ 0), hmagdef]
      ring
    rw [hsucc] at hlt
    rw [div_le_iff₀ (by positivity)]
    nlinarith
  have hns : _nice_step span =
      if span / (1 * mag) ≤ 6 then 1 * mag
      else if span / (2 * mag) ≤ 6 then 2 * mag
      else if span / (5 * mag) ≤ 6 then 5 * mag
      else if span / (10 * mag) ≤ 6 then 10 * mag
      else mag := by
    simp only [_nice_step]
    rw [if_pos hrough, ← hmagdef]
  by_cases h1 : span / (1 * mag) ≤ 6
  · refine ⟨1, by norm_num, ?_, ?_, ?_⟩
    · rw [hns, if_pos h1]
    · rw [hns, if_pos h1]
      exact h1
    · intro g hg _
      rw [hns, if_pos h1]
      simp only [List.mem_cons, List.mem_singleton] at hg
      rcases hg with rfl | rfl | rfl | rfl | h
      · linarith
      · linarith
      · linarith
      · linarith
      · simp at h
  · by_cases h2 : span / (2 * mag) ≤ 6
    · refine ⟨2, by norm_num, ?_, ?_, ?_⟩
      · rw [hns, if_neg h1, if_pos h2]
      · rw [hns, if_neg h1, if_pos h2]
        exact h2
      · intro g hg hgle
        rw [hns, if_neg h1, if_pos h2]
        simp only [List.mem_cons, List.mem_singleton] at hg
        rcases hg with rfl | rfl | rfl | rfl | h
        · exact absurd hgle h1
        · linarith
        · linarith
        · linarith
        · simp at h
    · by_cases h5 : span / (5 * mag) ≤ 6
      · refine ⟨5, by norm_num, ?_, ?_, ?_⟩
        · rw [hns, if_neg h1, if_neg h2, if_pos h5]
        · rw [hns, if_neg h1, if_neg h2, if_pos h5]
          exact h5
        · intro g hg hgle
          rw [hns, if_neg h1, if_neg h2, if_pos h5]
          simp only [List.mem_cons, List.mem_singleton] at hg
          rcases hg with rfl | rfl | rfl | rfl | h
          · exact absurd hgle h1
          · exact absurd hgle h2
          · linarith
          · linarith
          · simp at h
      · refine ⟨10, by norm_num, ?_, ?_, ?_⟩
        · rw [hns, if_neg h1, if_neg h2, if_neg h5, if_pos h10]
        · rw [hns, if_neg h1, if_neg h2, if_neg h5, if_pos h10]
          exact h10
        · intro g hg hgle
          rw [hns, if_neg h1, if_neg h2, if_neg h5, if_pos h10]
          simp only [List.mem_cons, List.mem_singleton] at hg
          rcases hg with rfl | rfl | rfl | rfl | h
          · exact absurd hgle h1
          · exact absurd hgle h2
          · exact absurd hgle h5
          · linarith
          · simp at h

/-- C7 witness: `span = 8` is positive, and `span = -3` gives a positive
step. -/
theorem nice_step_contract_witness :
    (∃ f ∈ ([1, 2, 5, 10] : List ℚ),
      _nice_step 8 = f * (10 : ℚ) ^ Int.log 10 ((8 : ℚ) / 4) ∧
      (8 : ℚ) / _nice_step 8 ≤ 6 ∧
      ∀ g ∈ ([1, 2, 5, 10] : List ℚ),
        (8 : ℚ) / (g * (10 : ℚ) ^ Int.log 10 ((8 : ℚ) / 4)) ≤ 6 →
        _nice_step 8 ≤ g * (10 : ℚ) ^ Int.log 10 ((8 : ℚ) / 4)) ∧
    0 < _nice_step (-3) :=
  ⟨(nice_step_contract 8).1 (by norm_num), (nice_step_contract (-3)).2 (by norm_num)⟩

/-- `hasVlineAt` distributes over `flatMap` as an `any`. -/
theorem hasVlineAt_flatMap {α : Type} (l : List α) (f : α → List DrawCmd) (x : ℤ) :
    hasVlineAt (l.flatMap f) x = l.any fun a => hasVlineAt (f a) x := by
  unfold hasVlineAt
  exact List.any_flatMap

/-- Every command emitted by the dashed-vertical-line loop sits in column `x`. -/
theorem vline_go_col (fuel : ℕ) :
    ∀ (pos endp x c x' : ℤ),
      hasVlineAt (_vline_dashed_go fuel pos endp x c) x' = true → x' = x := by
  induction fuel with
  | zero =>
    intro pos endp x c x' h
    simp [_vline_dashed_go, hasVlineAt] at h
  | succ n ih =>
    intro pos endp x c x' h
    unfold _vline_dashed_go at h
    split at h
    · unfold hasVlineAt at h
      simp only [List.any_cons, Bool.or_eq_true] at h
      rcases h with h | h
      · simp at h
        omega
      · exact ih _ _ _ _ _ h
    · simp [hasVlineAt] at h

/-- With at least one iteration left and the guard holding, the dashed loop
does emit a vertical line in its column. -/
theorem vline_go_first (n : ℕ) (pos endp x c : ℤ) (hp : pos < endp) :
    hasVlineAt (_vline_dashed_go (n + 1) pos endp x c) x = true := by
  unfold _vline_dashed_go
  rw [if_pos hp]
  simp [hasVlineAt]

/-- For positive length, `_vline_dashed` draws vertical lines in exactly its
own column. -/
theorem hasVlineAt_vline_dashed (x y h c x' : ℤ) (hh : 0 < h) :
    hasVlineAt (_vline_dashed x y h c) x' = true ↔ x' = x := by
  constructor
  · exact vline_go_col h.toNat y (y + h) x c x'
  · rintro rfl
    unfold _vline_dashed
    obtain ⟨n, hn⟩ : ∃ n, h.toNat = n + 1 := ⟨h.toNat - 1, by omega⟩
    rw [hn]
    exact vline_go_first n y (y + h) _ c (by omega)

/-- The set of columns in which `_draw_x_grid` draws vertical gridlines:
exactly `int(left + idx * step_x)` for `idx` ranging over
`range(s, points, s)` with `s = max(1, points // desired_lines)`, and none at
all for fewer than 2 points. -/
theorem x_grid_hasVlineAt (left top height : ℤ) (step_x : ℚ) (points : ℕ)
    (span_label : String) (hh : 0 < height) (x : ℤ) :
    hasVlineAt (_draw_x_grid left top height step_x points span_label) x = true ↔
      (2 ≤ points ∧
        ∃ idx ∈ pyRange (max 1 (points / (if span_label = "365d" then 12 else 6)))
            points (max 1 (points / (if span_label = "365d" then 12 else 6))),
          x = pyInt ((left : ℚ) + (idx : ℚ) * step_x)) := by
  unfold _draw_x_grid
  by_cases hp : points < 2
  · rw [if_pos hp]
    simp [hasVlineAt]
    omega
  · rw [if_neg hp]
    have h2 : 2 ≤ points := by omega
    simp only [hasVlineAt_flatMap, List.any_eq_true]
    constructor
    · rintro ⟨idx, hidx, hv⟩
      exact ⟨h2, idx, hidx,
        (hasVlineAt_vline_dashed _ top height FG_COLOR x hh).mp hv⟩
    · rintro ⟨-, idx, hidx, rfl⟩
      exact ⟨idx, hidx,
        (hasVlineAt_vline_dashed _ top height FG_COLOR _ hh).mpr rfl⟩

/-- The vertical gridline columns as the C8 claim (from the spec) describes
them: the interior boundaries of the chart width divided into 12 ("365d") or
6 (otherwise) equal segments, at `left + k * width / segments`. -/
def spec_x_grid_positions (left width : ℤ) (span_label : String) : List ℤ :=
  let segs : ℤ := if span_label = "365d" then 12 else 6
  (List.range (segs.toNat - 1)).map fun k => left + ((k : ℤ) + 1) * width / segs

/-- C8 counterexample: the real chart geometry (`left = 55`, `height = 64`,
width 235) with a 2-point history in the short-span view.  The claim demands
5 interior-boundary gridlines (all strictly inside the chart); the code draws
exactly one gridline, at column `int(55 + 1 * 235) = 290` — the chart's right
edge, which is not an interior segment boundary. -/
theorem x_grid_counterexample :
    hasVlineAt (_draw_x_grid 55 34 64 235 2 "24h") 290 = true ∧
    290 ∉ spec_x_grid_positions 55 235 "24h" ∧
    (spec_x_grid_positions 55 235 "24h").length = 5 ∧
    ∀ x : ℤ, hasVlineAt (_draw_x_grid 55 34 64 235 2 "24h") x = true → x = 290 := by
  have hiff := x_grid_hasVlineAt 55 34 64 235 2 "24h" (by norm_num)
  have hval : pyInt ((55 : ℚ) + ((1 : ℕ) : ℚ) * 235) = 290 := by
    norm_num [pyInt]
  have hmem : (1 : ℕ) ∈ pyRange (max 1 (2 / (if ("24h" : String) = "365d" then 12 else 6)))
      2 (max 1 (2 / (if ("24h" : String) = "365d" then 12 else 6))) := by
    decide
  refine ⟨?_, by decide, by decide, ?_⟩
  · exact (hiff 290).mpr ⟨by norm_num, 1, hmem, hval.symm⟩
  · intro x hx
    obtain ⟨-, idx, hidx, rfl⟩ := (hiff x).mp hx
    have hpy : pyRange (max 1 (2 / (if ("24h" : String) = "365d" then 12 else 6))) 2
        (max 1 (2 / (if ("24h" : String) = "365d" then 12 else 6))) = [1] := by
      decide
    rw [hpy] at hidx
    simp only [List.mem_singleton] at hidx
    rw [hidx]
    exact hval

/-- C8 amended: `_draw_x_grid` draws dashed vertical gridlines exactly in the
columns `int(left + idx * step_x)` for `idx = s, 2s, ...` below `points`,
where `s = max(1, points // D)` and `D = 12` for the `"365d"` view, else 6
(one line per `s`-th data point, `(points-1) // s` lines in total, not a fixed
11 or 5); for fewer than 2 data points it draws no vertical gridline at all. -/
theorem x_grid_columns (left top height : ℤ) (step_x : ℚ) (points : ℕ)
    (span_label : String) (hh : 0 < height) (x : ℤ) :
    hasVlineAt (_draw_x_grid left top height step_x points span_label) x = true ↔
      (2 ≤ points ∧
        ∃ idx ∈ pyRange (max 1 (points / (if span_label = "365d" then 12 else 6)))
            points (max 1 (points / (if span_label = "365d" then 12 else 6))),
          x = pyInt ((left : ℚ) + (idx : ℚ) * step_x)) :=
  x_grid_hasVlineAt left top height step_x points span_label hh x

/-- C8 witness: the amended characterisation at the concrete geometry, in
both directions (column 290 is drawn; the 1-point history draws nothing). -/
theorem x_grid_columns_witness :
    (hasVlineAt (_draw_x_grid 55 34 64 235 2 "24h") 290 = true ↔
      (2 ≤ 2 ∧
        ∃ idx ∈ pyRange (max 1 (2 / (if ("24h" : String) = "365d" then 12 else 6)))
            2 (max 1 (2 / (if ("24h" : String) = "365d" then 12 else 6))),
          (290 : ℤ) = pyInt ((55 : ℚ) + (idx : ℚ) * 235))) ∧
    (hasVlineAt (_draw_x_grid 55 34 64 235 1 "24h") 290 = true ↔
      (2 ≤ 1 ∧
        ∃ idx ∈ pyRange (max 1 (1 / (if ("24h" : String) = "365d" then 12 else 6)))
            1 (max 1 (1 / (if ("24h" : String) = "365d" then 12 else 6))),
          (290 : ℤ) = pyInt ((55 : ℚ) + (idx : ℚ) * 235))) :=
  ⟨x_grid_columns 55 34 64 235 2 "24h" (by norm_num) 290,
   x_grid_columns 55 34 64 235 1 "24h" (by norm_num) 290⟩

/-- C9: `draw_chart` on an empty history performs exactly two drawing calls —
the one-pixel-inset border rectangle and the "keine Daten" placeholder text —
and nothing else (no gridlines, no polyline, no labels). -/
theorem draw_chart_empty (history : RingBuffer) (span_label : String)
    (h : history.data = []) :
    draw_chart history span_label =
      [DrawCmd.rect 54 33 237 66 0, DrawCmd.textLit "keine Daten" 59 66 0] := by
  simp only [draw_chart, h, EPD_WIDTH, FG_COLOR]
  norm_num
  decide

/-- C9 witness: a freshly created buffer is empty. -/
theorem draw_chart_empty_witness :
    draw_chart (RingBuffer.new 3) "24h" =
      [DrawCmd.rect 54 33 237 66 0, DrawCmd.textLit "keine Daten" 59 66 0] :=
  draw_chart_empty (RingBuffer.new 3) "24h" rfl

/-- Once the guard must fail within `n` more steps, every fuel of at least `n`
produces the same (completed) `yLoop` run. -/
theorem yLoop_stable (step max_val : ℚ) :
    ∀ (n : ℕ) (y : ℚ), max_val < y + n * step →
      ∀ m k : ℕ, n ≤ m → n ≤ k →
        yLoop m y max_val step = yLoop k y max_val step := by
  intro n
  induction n with
  | zero =>
    intro y hy m k _ _
    have hg : ¬ y ≤ max_val := by
      push_cast at hy
      intro h
      linarith
    have h1 : yLoop m y max_val step = [] := by
      cases m with
      | zero => rfl
      | succ m => simp [yLoop, hg]
    have h2 : yLoop k y max_val step = [] := by
      cases k with
      | zero => rfl
      | succ k => simp [yLoop, hg]
    rw [h1, h2]
  | succ n ih =>
    intro y hy m k hm hk
    by_cases hg : y ≤ max_val
    · obtain ⟨m', rfl⟩ : ∃ m', m = m' + 1 := ⟨m - 1, by omega⟩
      obtain ⟨k', rfl⟩ : ∃ k', k = k' + 1 := ⟨k - 1, by omega⟩
      simp only [yLoop, if_pos hg]
      have hy' : max_val < (y + step) + n * step := by
        push_cast at hy ⊢
        linarith
      rw [ih (y + step) hy' m' k' (by omega) (by omega)]
    · have h1 : yLoop m y max_val step = [] := by
        cases m with
        | zero => rfl
        | succ m => simp [yLoop, hg]
      have h2 : yLoop k y max_val step = [] := by
        cases k with
        | zero => rfl
        | succ k => simp [yLoop, hg]
      rw [h1, h2]

/-- C10: for the span `draw_chart` passes to `_nice_step`
(`max(max_val - min_val, 1e-6)`), the resulting step is strictly positive and
the `while y <= max_val` loop of `_draw_y_grid` — starting at
`ceil(min_val/step)*step`, adding `step` each iteration — makes only finitely
many iterations: past some finite fuel the run no longer changes, so
`_draw_y_grid` terminates. -/
theorem y_grid_terminates (min_val max_val step : ℚ)
    (hstep : step = _nice_step (max (max_val - min_val) (1 / 1000000))) :
    0 < step ∧
    ∃ fuel : ℕ, ∀ m : ℕ, fuel ≤ m →
      yLoop m ((⌈min_val / step⌉ : ℚ) * step) max_val step =
        yLoop fuel ((⌈min_val / step⌉ : ℚ) * step) max_val step := by
  have hpos : 0 < step := hstep ▸ nice_step_pos _
  refine ⟨hpos, ?_⟩
  obtain ⟨n, hn⟩ := exists_nat_gt ((max_val - (⌈min_val / step⌉ : ℚ) * step) / step)
  have hbound : max_val < (⌈min_val / step⌉ : ℚ) * step + n * step := by
    have h := (div_lt_iff₀ hpos).mp hn
    linarith
  exact ⟨n, fun m hm =>
    yLoop_stable step max_val n ((⌈min_val / step⌉ : ℚ) * step) hbound m n hm le_rfl⟩

/-- C10 witness: the value range `[0, 10]`. -/
theorem y_grid_terminates_witness :
    0 < _nice_step (max ((10 : ℚ) - 0) (1 / 1000000)) ∧
    ∃ fuel : ℕ, ∀ m : ℕ, fuel ≤ m →
      yLoop m ((⌈(0 : ℚ) / _nice_step (max ((10 : ℚ) - 0) (1 / 1000000))⌉ : ℚ) *
          _nice_step (max ((10 : ℚ) - 0) (1 / 1000000))) 10
        (_nice_step (max ((10 : ℚ) - 0) (1 / 1000000))) =
      yLoop fuel ((⌈(0 : ℚ) / _nice_step (max ((10 : ℚ) - 0) (1 / 1000000))⌉ : ℚ) *
          _nice_step (max ((10 : ℚ) - 0) (1 / 1000000))) 10
        (_nice_step (max ((10 : ℚ) - 0) (1 / 1000000))) :=
  y_grid_terminates 0 10 _ rfl
